import Mathlib

/-! Verification of the stacked-commits core against its specification

Shallow embedding of the two crates of the repository:

* namespace `SC` — the original crate (`src/src/git/mod.rs`, struct `GitRepo`);
* namespace `UB` — the `unibranch` crate (`src/unibranch/src/git/mod.rs`,
  struct `GitRepo` with persisted `SyncState`).

Commit identifiers (`git2::Oid`) are modelled as `Nat`; trees as finite
path → blob-id association lists.  Engine primitives whose internals are
out of scope for the spec (three-way cherry-pick, diff application) are
modelled as function-valued fields of the repository state; primitives
whose behaviour the spec relies on (tree diffing as map comparison,
revision walking on the linear, non-branching stack guaranteed by §3)
are given executable models.  Observable side effects (commit creation,
branch moves, sync-state deletion, console output) are recorded in an
explicit event trace so that ordering claims can be stated.
-/

/-- Decidable equality for `Except`, used to evaluate the model's
results on concrete repositories. -/
instance {ε α : Type} [DecidableEq ε] [DecidableEq α] :
    DecidableEq (Except ε α) := fun x y =>
  match x, y with
  | Except.ok a, Except.ok b =>
    if h : a = b then isTrue (by rw [h]) else isFalse (by simp [h])
  | Except.error a, Except.error b =>
    if h : a = b then isTrue (by rw [h]) else isFalse (by simp [h])
  | Except.ok _, Except.error _ => isFalse (by simp)
  | Except.error _, Except.ok _ => isFalse (by simp)

namespace StackedCommits

/-- Model of `git2::Oid`: a content-addressed object identifier. -/
abbrev Oid := Nat

/-- A git tree, as a finite map from paths to blob identifiers. -/
abbrev Tree := List (String × Nat)

/-- Model of `git2::Signature`: an author/committer identity. -/
structure Signature where
  name : String
  email : String
deriving Repr, DecidableEq

/-- Model of `CommitMetadata` (module `local_commit`): the per-commit annotation
recording which remote branch (and, when pinned, which remote commit) a
local commit is published as. -/
structure CommitMetadata where
  remote_branch_name : String
  remote_commit : Option Oid
deriving Repr, DecidableEq

/-- A commit object: identifier, parent identifiers, snapshot tree,
message and identities. -/
structure Commit where
  id : Oid
  parents : List Oid
  tree : Tree
  message : String
  author : Signature
  committer : Signature
deriving Repr, DecidableEq

/-- Boolean prefix test on strings, by their character lists (the model
of `str::starts_with`); written this way so that it evaluates by kernel
reduction on concrete repositories. -/
def strStarts (s p : String) : Bool := p.data.isPrefixOf s.data

/-- Drop the first `n` characters of a string (the model of slicing off
a matched prefix). -/
def strDrop (s : String) (n : Nat) : String := String.mk (s.data.drop n)

/-- Look up a path in a tree. -/
def lookupPath (t : Tree) (p : String) : Option Nat :=
  (t.find? (fun e => e.1 = p)).map (fun e => e.2)

/-- A single diff delta: path, old blob, new blob. -/
abbrev Delta := String × Option Nat × Option Nat

/-- A git index: tree entries plus the paths of conflicted entries. -/
structure Index where
  entries : Tree
  conflicts : List String
deriving Repr, DecidableEq

/-- Model of `Repository::diff_tree_to_index`: the deltas between a tree and an
index, one delta for every path at which the two finite maps differ. -/
def diff_tree_to_index (t : Tree) (i : Index) : List Delta :=
  ((t.map Prod.fst ++ i.entries.map Prod.fst).dedup).filterMap
    (fun p =>
      let o := lookupPath t p
      let n := lookupPath i.entries p
      if o = n then none else some (p, o, n))

/-- Model of `Repository::diff_tree_to_tree`: deltas between two trees. -/
def diff_tree_to_tree (t₁ t₂ : Tree) : List Delta :=
  ((t₁.map Prod.fst ++ t₂.map Prod.fst).dedup).filterMap
    (fun p =>
      let o := lookupPath t₁ p
      let n := lookupPath t₂ p
      if o = n then none else some (p, o, n))

/-- Replace (or delete) the entry of one path in a tree. -/
def setPath (t : Tree) (p : String) (v : Option Nat) : Tree :=
  match v with
  | none => t.filter (fun e => e.1 ≠ p)
  | some n => (p, n) :: t.filter (fun e => e.1 ≠ p)

/-- Apply a list of deltas to a tree. -/
def applyDiff (t : Tree) (ds : List Delta) : Tree :=
  ds.foldl (fun acc d => setPath acc d.1 d.2.2) t

/-- All strict ancestors of a commit, fuel-bounded (the fuel is in
practice the number of commits, enough for any acyclic history).
Mirrors the reachability that `git2::Repository::graph_descendant_of`
queries; a commit is not an ancestor of itself. -/
def ancestorsFuel (lookup : Oid → Option Commit) : Nat → Oid → List Oid
  | 0, _ => []
  | fuel+1, id =>
    match lookup id with
    | none => []
    | some c => c.parents ++ c.parents.flatMap (ancestorsFuel lookup fuel)

/-- Model of `Repository::graph_descendant_of commit ancestor`: `commit` is a
strict descendant of `ancestor` (a commit is not its own descendant). -/
def graph_descendant_of (lookup : Oid → Option Commit) (fuel : Nat)
    (commit ancestor : Oid) : Bool :=
  (ancestorsFuel lookup fuel commit).contains ancestor

/-- Membership in the hidden set of a revision walk: everything
reachable from the hidden commit, itself included. -/
def hiddenBy (lookup : Oid → Option Commit) (fuel : Nat) (hide id : Oid) : Bool :=
  id = hide || (ancestorsFuel lookup fuel hide).contains id

/-- Walk a first-parent chain downwards from `id`, stopping at (and
excluding) any commit in the hidden set, newest first. -/
def chainFromFuel (lookup : Oid → Option Commit) (hide : Oid → Bool) :
    Nat → Oid → List Oid
  | 0, _ => []
  | fuel+1, id =>
    if hide id then []
    else
      match lookup id with
      | none => []
      | some c =>
        id :: (match c.parents with
               | [] => []
               | p :: _ => chainFromFuel lookup hide fuel p)

/-- A `TOPOLOGICAL | REVERSE` revision walk pushing `pushId` and hiding
`hideId`, modelled on the linear (first-parent, non-branching) histories
that the Stack invariant of §3 guarantees: the commits above the hidden
set up to `pushId`, oldest first. -/
def revwalkTopoReverse (lookup : Oid → Option Commit) (fuel : Nat)
    (pushId hideId : Oid) : List Oid :=
  (chainFromFuel lookup (hiddenBy lookup fuel hideId) fuel pushId).reverse

end StackedCommits

namespace SC

open StackedCommits

/-- State of `GitRepo` of the original crate together with the repository state it
drives.  `cherrypick` models `Repository::cherrypick_commit` (three-way
merge internals are out of scope, §1) and `applyToTree` models
`Repository::apply_to_tree`; both are engine primitives taken as
function-valued fields. `branches` maps full branch names such as
`origin/feature-1` to their head commits; `notes` is the metadata note
store keyed by commit id (the note text parse of module `local_commit`
is not under `src/`, so notes hold the parsed metadata directly). -/
structure GitRepo where
  commits : List Commit
  base_commit_id : Oid
  branches : List (String × Oid)
  notes : List (Oid × CommitMetadata)
  signature : Option Signature
  next_oid : Oid
  cherrypick : Oid → Oid → Index
  applyToTree : Tree → List Delta → Index

/-- Model of `Repository::find_commit`. -/
def find_commit (r : GitRepo) (id : Oid) : Option Commit :=
  r.commits.find? (fun c => c.id = id)

/-- Model of `Repository::find_branch` followed by `peel_to_commit`. -/
def find_branch_commit (r : GitRepo) (name : String) : Option Commit :=
  (r.branches.find? (fun b => b.1 = name)).bind (fun b => find_commit r b.2)

/-- Model of `GitRepo::find_note_for_commit`: the note attached to a commit, if
any (`NotFound` becomes `none`). -/
def find_note_for_commit (r : GitRepo) (id : Oid) : Option CommitMetadata :=
  (r.notes.find? (fun n => n.1 = id)).map (fun n => n.2)

/-- Model of `GitRepo::find_local_branch_commit`: resolve the remote counterpart
of a tracked local commit.  The metadata note is unwrapped (a missing
note panics in the source, modelled as an error); a pinned
`remote_commit` wins, otherwise the current head of
`origin/<remote_branch_name>`. -/
def find_local_branch_commit (r : GitRepo) (local_commit : Commit) :
    Except String Commit :=
  match find_note_for_commit r local_commit.id with
  | none => .error "called unwrap on a None value"
  | some meta =>
    match meta.remote_commit with
    | some remote_commit_id =>
      match find_commit r remote_commit_id with
      | some c => .ok c
      | none => .error "object not found"
    | none =>
      match find_branch_commit r ("origin/" ++ meta.remote_branch_name) with
      | some c => .ok c
      | none => .error "branch not found"

/-- Model of `GitRepo::commit_index`: refuse a conflicted index, otherwise write
the tree and create a commit on `parent` with the given message, the
original commit's author, and the repository signature as committer
(falling back to the original committer). -/
def commit_index (r : GitRepo) (index : Index) (original_commit : Commit)
    (parent : Oid) (message : String) : Except String (GitRepo × Commit) :=
  if index.conflicts ≠ [] then
    .error ("This commit cannot be cherry-picked on " ++ toString r.base_commit_id)
  else
    match find_commit r parent with
    | none => .error "object not found"
    | some _ =>
      let committer := r.signature.getD original_commit.committer
      let c : Commit :=
        { id := r.next_oid
          parents := [parent]
          tree := index.entries
          message := message
          author := original_commit.author
          committer := committer }
      .ok ({ r with commits := r.commits ++ [c], next_oid := r.next_oid + 1 }, c)

/-- Model of `GitRepo::cherry_pick_commit`: cherry-pick `original_commit` onto the
base, diff the result against the chosen parent (`pr_head` or the base
commit), report "Already up to date" and change nothing when the diff is
empty, otherwise apply the diff to the parent tree and commit it with
either the original message (parent = base) or a `Fixup!` message
(parent = an existing PR head).  Returns the (possibly extended)
repository, the console output, and the new commit if one was made. -/
def cherry_pick_commit (r : GitRepo) (original_commit : Commit)
    (pr_head : Option Commit) :
    Except String (GitRepo × List String × Option Commit) :=
  match find_commit r r.base_commit_id with
  | none => .error "Cherry picking directly on master"
  | some base_commit =>
    let complete_index := r.cherrypick original_commit.id base_commit.id
    let parent_commit := pr_head.getD base_commit
    let diff := diff_tree_to_index parent_commit.tree complete_index
    let first_pr_commit :=
      (revwalkTopoReverse (find_commit r) (r.commits.length + 1)
        parent_commit.id r.base_commit_id).head?
    let msgOut : List String :=
      match first_pr_commit with
      | some first_commit_id =>
        match find_commit r first_commit_id with
        | some first_commit =>
          if first_commit.message ≠ original_commit.message then
            ["Commit message changed, need to update"]
          else []
        | none => []
      | none => []
    if diff.isEmpty then
      .ok (r, msgOut ++ ["Already up to date"], none)
    else
      let index := r.applyToTree parent_commit.tree diff
      if parent_commit.id = r.base_commit_id then
        (commit_index r index original_commit parent_commit.id
            original_commit.message).map
          (fun rc => (rc.1, msgOut, some rc.2))
      else
        (commit_index r index original_commit parent_commit.id
            ("Fixup! " ++ toString parent_commit.id)).map
          (fun rc => (rc.1, msgOut, some rc.2))

end SC

namespace UB

open StackedCommits

/-- Model of `CommandOption`: execution mode of the remote collaborator. -/
inductive CommandOption
  | Default
  | Silent
  | DryRun
deriving Repr, DecidableEq

/-- Model of `SyncState`: the persisted record of an interrupted reconciliation. -/
structure SyncState where
  main_commit_id : Oid
  remote_commit_id : Oid
  main_commit_parent_id : Oid
  main_branch_name : String
deriving Repr, DecidableEq

/-- What `HEAD` resolves to: a symbolic reference (full refname) or a
detached commit. -/
inductive HeadRef
  | branch (refname : String)
  | detached (id : Oid)
deriving Repr, DecidableEq

/-- Observable repository effects, recorded in order of occurrence. -/
inductive Event
  | commitCreated (id : Oid)
  | syncStateDeleted
  | checkedOutTree (t : Tree)
  | headDetached (id : Oid)
  | branchMoved (name : String) (id : Oid)
  | headSet (refname : String)
  | printed (s : String)
deriving Repr, DecidableEq

/-- The on-disk repository state that the `unibranch` `GitRepo` drives:
object database, refs, `HEAD`, working tree, the (resolved) index, the
`.ubr/SYNC_MERGE_HEAD` file, the `info/exclude` file, the
`notes.rewriteRef` configuration, notes, a revparse table, the local
signature, and the event trace.  `syncFile = none` means no file;
`some none` a file whose contents do not parse as a `SyncState`
(`serde_json` parsing itself is an external collaborator); `some (some
st)` a file holding `st`.  `remoteBranches` is keyed by remote-qualified
short name (`origin/x`), `localBranches` by short name. -/
structure Store where
  commits : List Commit
  localBranches : List (String × Oid)
  remoteBranches : List (String × Oid)
  head : Option HeadRef
  worktree : Tree
  indexTree : Tree
  gitMergeState : Bool
  syncFile : Option (Option SyncState)
  infoExclude : Option String
  notesRewriteConfig : Bool
  notes : List (Oid × CommitMetadata)
  revs : List (String × Oid)
  signature : Option Signature
  next_oid : Oid
  events : List Event
deriving Repr, DecidableEq

/-- The `GitRepo` handle of the `unibranch` crate. -/
structure GitRepo where
  store : Store
  current_branch_name : String
  git_command_option : CommandOption
  sync_state : Option SyncState
deriving Repr, DecidableEq

/-- Model of `Repository::find_commit`. -/
def find_commit (s : Store) (id : Oid) : Option Commit :=
  s.commits.find? (fun c => c.id = id)

/-- Model of `Repository::find_branch (BranchType::Remote)` by remote-qualified
short name. -/
def find_remote_branch (s : Store) (name : String) : Option Oid :=
  (s.remoteBranches.find? (fun b => b.1 = name)).map (fun b => b.2)

/-- Model of `Repository::refname_to_id` for the two ref namespaces the crate
uses. -/
def refname_to_id (s : Store) (refname : String) : Option Oid :=
  if strStarts refname "refs/remotes/" then
    find_remote_branch s (strDrop refname 13)
  else if strStarts refname "refs/heads/" then
    (s.localBranches.find? (fun b => b.1 = strDrop refname 11)).map (fun b => b.2)
  else none

/-- Model of `Repository::revparse_ext` followed by `peel_to_commit`, restricted
to what the crate feeds it: a commit hash resolves to that commit,
anything else through the repository's revision table. -/
def revparse (s : Store) (commit_ref : String) : Option Oid :=
  match s.commits.find? (fun c => toString c.id = commit_ref) with
  | some c => some c.id
  | none => (s.revs.find? (fun rv => rv.1 = commit_ref)).map (fun rv => rv.2)

/-- The commit `HEAD` resolves to (`repo.head()?.peel_to_commit()?`). -/
def head_commit (s : Store) : Except String Commit :=
  match s.head with
  | none => .error "No head"
  | some (HeadRef.detached id) =>
    match find_commit s id with
    | some c => .ok c
    | none => .error "object not found"
  | some (HeadRef.branch refname) =>
    match (refname_to_id s refname).bind (find_commit s) with
    | some c => .ok c
    | none => .error "object not found"

/-- Model of `GitRepo::try_load_sync_state`: read `.ubr/SYNC_MERGE_HEAD` if it
exists and parse it, converting any parse failure to `none` via
`.ok()`. -/
def try_load_sync_state (s : Store) : Option SyncState :=
  s.syncFile.bind (fun contents => contents)

/-- Model of `GitRepo::open_with_remote`: if a Sync State loads, return
immediately with the persisted branch name; otherwise require `HEAD` to
be a local branch (else `Detached HEAD`), strip `refs/heads/`, configure
note rewriting and exclude `.ubr` from change tracking. -/
def open_with_remote (w : Store) (remote : CommandOption) :
    Except String GitRepo :=
  match try_load_sync_state w with
  | some state =>
    .ok { store := w
          current_branch_name := state.main_branch_name
          git_command_option := remote
          sync_state := some state }
  | none =>
    match w.head with
    | none => .error "No head"
    | some (HeadRef.detached _) => .error "Detached HEAD"
    | some (HeadRef.branch refname) =>
      if strStarts refname "refs/heads/" then
        .ok { store := { w with notesRewriteConfig := true
                                infoExclude := some ".ubr" }
              current_branch_name := strDrop refname 11
              git_command_option := remote
              sync_state := none }
      else .error "Detached HEAD"

/-- Model of `GitRepo::open`: delegates with `CommandOption::Silent`. -/
def GitRepo.open (w : Store) : Except String GitRepo :=
  open_with_remote w CommandOption.Silent

/-- Model of `GitRepo::base_commit`: the commit of
`refs/remotes/origin/<current branch>`. -/
def base_commit (g : GitRepo) : Except String Commit :=
  match refname_to_id g.store ("refs/remotes/origin/" ++ g.current_branch_name) with
  | none => .error "reference not found"
  | some base_commit_id =>
    match find_commit g.store base_commit_id with
    | some c => .ok c
    | none => .error "object not found"

/-- Model of `MainCommit`: the Tracked/Untracked view of a stack commit
(module `local_commit`, whose source is not under `src/`). -/
inductive MainCommit
  | unTracked (commit : Commit)
  | tracked (commit : Commit) (meta : CommitMetadata)
deriving Repr, DecidableEq

/-- Modelled from the spec: `MainCommit::new` of module `local_commit`
is not under `src/`.  Per §3 and §9, the Tracked/Untracked view is a
tagged union resolved by probing the Commit Metadata Store for a note on
the commit's identifier. -/
def MainCommit.new (s : Store) (c : Commit) : MainCommit :=
  match (s.notes.find? (fun n => n.1 = c.id)).map (fun n => n.2) with
  | some meta => MainCommit.tracked c meta
  | none => MainCommit.unTracked c

/-- Model of `GitRepo::find_unpushed_commit`: resolve the revision, then fail
with the already-pushed error unless the commit is a strict descendant
of the base commit; mutates nothing. -/
def find_unpushed_commit (g : GitRepo) (commit_ref : String) :
    Except String MainCommit :=
  match revparse g.store commit_ref with
  | none => .error ("Bad revision '" ++ commit_ref ++ "'")
  | some oid =>
    match find_commit g.store oid with
    | none => .error "object not found"
    | some commit =>
      match base_commit g with
      | .error e => .error e
      | .ok base =>
        if graph_descendant_of (find_commit g.store)
            (g.store.commits.length + 1) commit.id base.id then
          .ok (MainCommit.new g.store commit)
        else
          .error ("Commit " ++ toString commit.id ++ " is already pushed to the remote")

/-- Model of `GitRepo::save_meta_data`: idempotent note write keyed by commit
identifier, overwriting any existing note. -/
def save_meta_data (g : GitRepo) (commit : Commit) (meta_data : CommitMetadata) :
    GitRepo × Except String Unit :=
  ({ g with store := { g.store with
       notes := (commit.id, meta_data) ::
         g.store.notes.filter (fun n => n.1 ≠ commit.id) } },
   .ok ())

/-- Model of `GitRepo::cleanup_state`: delete `.ubr/SYNC_MERGE_HEAD`; removing a
file that does not exist fails. -/
def cleanup_state (g : GitRepo) : GitRepo × Except String Unit :=
  match g.store.syncFile with
  | none => (g, .error "Cleanup sync state")
  | some _ =>
    ({ g with store := { g.store with
         syncFile := none
         events := g.store.events ++ [Event.syncStateDeleted] } },
     .ok ())

/-- Model of `GitRepo::save_sync_state`: `File::create_new` fails whenever the
file already exists, so an existing Sync State is never overwritten. -/
def save_sync_state (g : GitRepo) (state : SyncState) :
    GitRepo × Except String Unit :=
  match g.store.syncFile with
  | some _ => (g, .error "File exists (os error 17)")
  | none =>
    ({ g with store := { g.store with syncFile := some (some state) } },
     .ok ())

/-- Model of `GitRepo::unpushed_commits`: walk from the current branch head,
hiding the persisted `main_commit_id` when a Sync State is present and
the base commit otherwise, oldest first, each commit resolved to its
Tracked/Untracked view. -/
def unpushed_commits (g : GitRepo) : Except String (List MainCommit) :=
  match g.store.localBranches.find? (fun b => b.1 = g.current_branch_name) with
  | none => .error "branch not found"
  | some b =>
    match find_commit g.store b.2 with
    | none => .error "object not found"
    | some head =>
      match (match g.sync_state with
             | some sync_state => Except.ok sync_state.main_commit_id
             | none => (base_commit g).map (fun c => c.id) :
              Except String Oid) with
      | .error e => .error e
      | .ok base_commit_id =>
        let ids := revwalkTopoReverse (find_commit g.store)
          (g.store.commits.length + 1) head.id base_commit_id
        ids.mapM (fun oid =>
          match find_commit g.store oid with
          | none => Except.error "whhat"
          | some c => Except.ok (MainCommit.new g.store c))

/-- Model of `GitRepo::update_current_branch`: under `DryRun`, report the
intended movement and change nothing; otherwise check out the new
head's tree, then detach `HEAD`, move the branch ref, and reattach
`HEAD`. -/
def update_current_branch (g : GitRepo) (new_head : Commit) :
    GitRepo × Except String Unit :=
  match g.git_command_option with
  | CommandOption.DryRun =>
    ({ g with store := { g.store with
         events := g.store.events ++
           [Event.printed ("Setting " ++ g.current_branch_name ++
             " to point to " ++ toString new_head.id)] } },
     .ok ())
  | _ =>
    let s₁ := { g.store with
      worktree := new_head.tree
      events := g.store.events ++ [Event.checkedOutTree new_head.tree] }
    let s₂ := { s₁ with
      head := some (HeadRef.detached new_head.id)
      events := s₁.events ++ [Event.headDetached new_head.id] }
    let s₃ := { s₂ with
      localBranches := (g.current_branch_name, new_head.id) ::
        s₂.localBranches.filter (fun b => b.1 ≠ g.current_branch_name)
      events := s₂.events ++ [Event.branchMoved g.current_branch_name new_head.id] }
    let s₄ := { s₃ with
      head := some (HeadRef.branch ("refs/heads/" ++ g.current_branch_name))
      events := s₃.events ++ [Event.headSet ("refs/heads/" ++ g.current_branch_name)] }
    ({ g with store := s₄ }, .ok ())

/-- Modelled from the spec: `TrackedCommit::cont` of module
`local_commit` is not under `src/`.  Per §4.3 steps 3–4: re-parent the
merge result onto the already-reconciled predecessor by applying its
diff against the remote tip onto the predecessor's tree, and carry the
commit's message and metadata forward to the new identifier. -/
def TrackedCommit.cont (g : GitRepo) (orig : Commit) (meta : CommitMetadata)
    (merge_commit : Commit) (parent : Commit) : GitRepo × Except String Commit :=
  let tip? : Option Commit :=
    match meta.remote_commit with
    | some rid => find_commit g.store rid
    | none =>
      (find_remote_branch g.store ("origin/" ++ meta.remote_branch_name)).bind
        (find_commit g.store)
  match tip? with
  | none => (g, .error "Find the remote branch")
  | some tip =>
    let diff := diff_tree_to_tree tip.tree merge_commit.tree
    let newTree := applyDiff parent.tree diff
    let c : Commit :=
      { id := g.store.next_oid
        parents := [parent.id]
        tree := newTree
        message := orig.message
        author := orig.author
        committer := orig.committer }
    ({ g with store := { g.store with
         commits := g.store.commits ++ [c]
         next_oid := g.store.next_oid + 1
         notes := (c.id, meta) :: g.store.notes.filter (fun n => n.1 ≠ c.id)
         events := g.store.events ++ [Event.commitCreated c.id] } },
     .ok c)

/-- Model of `GitRepo::finish_merge`: with the persisted Sync State in hand,
write the resolved index as a tree, create the merge commit with the
current `HEAD` commit and the persisted remote commit as parents, clear
the engine's merge state, delete the Sync State file, and hand the
result to `TrackedCommit::cont` with the persisted predecessor.  (The
merge commit is passed to `cont` directly; it was created two steps
earlier so the intervening `find_commit` cannot fail.) -/
def finish_merge (g : GitRepo) : GitRepo × Except String Commit :=
  match g.sync_state with
  | none => (g, .error "Must have a sync state")
  | some state =>
    let tree := g.store.indexTree
    match g.store.signature with
    | none => (g, .error "config value 'user.name' was not found")
    | some author =>
      match head_commit g.store with
      | .error e => (g, .error e)
      | .ok headC =>
        match find_commit g.store state.remote_commit_id with
        | none => (g, .error "object not found")
        | some remoteC =>
          let merge_commit : Commit :=
            { id := g.store.next_oid
              parents := [headC.id, remoteC.id]
              tree := tree
              message := "Merge"
              author := author
              committer := author }
          let g₁ : GitRepo := { g with store := { g.store with
            commits := g.store.commits ++ [merge_commit]
            next_oid := g.store.next_oid + 1
            events := g.store.events ++ [Event.commitCreated merge_commit.id] } }
          let g₂ : GitRepo := { g₁ with store := { g₁.store with
            gitMergeState := false } }
          match cleanup_state g₂ with
          | (g₃, .error e) => (g₃, .error e)
          | (g₃, .ok _) =>
            match find_unpushed_commit g₃ (toString state.main_commit_id) with
            | .error e => (g₃, .error e)
            | .ok (MainCommit.unTracked _) => (g₃, .error "not yet implemented")
            | .ok (MainCommit.tracked c meta) =>
              match find_commit g₃.store state.main_commit_parent_id with
              | none => (g₃, .error "object not found")
              | some parentC =>
                TrackedCommit.cont g₃ c meta merge_commit parentC

/-- No `syncStateDeleted` event occurs before the first
`commitCreated` event: in this trace, the sync state was never deleted
in a run that had not created a commit. -/
def deletionPrecededByCommit : List Event → Bool
  | [] => true
  | Event.syncStateDeleted :: _ => false
  | Event.commitCreated _ :: _ => true
  | _ :: rest => deletionPrecededByCommit rest

end UB

namespace StackedCommits

/-- A fixed identity used by concrete test repositories. -/
def sig₀ : Signature := { name := "alice", email := "alice@example.com" }

/-- Concrete base commit of the test repositories. -/
def c₀ : Commit :=
  { id := 0, parents := [], tree := [], message := "base"
    author := sig₀, committer := sig₀ }

/-- Concrete unpushed feature commit on top of `c₀`. -/
def c₁ : Commit :=
  { id := 1, parents := [0], tree := [], message := "feature"
    author := sig₀, committer := sig₀ }

/-- Concrete remote-branch head commit. -/
def c₂ : Commit :=
  { id := 2, parents := [0], tree := [("f", 2)], message := "published"
    author := sig₀, committer := sig₀ }

/-- Metadata pinning a tracked commit to remote commit `2`. -/
def meta₁ : CommitMetadata := { remote_branch_name := "pr-1", remote_commit := some 2 }

/-- Metadata with no pinned remote commit. -/
def meta₂ : CommitMetadata := { remote_branch_name := "pr-1", remote_commit := none }

end StackedCommits

namespace SC

open StackedCommits

/-- Concrete repository in which cherry-picking `c₁` reproduces the base
tree exactly, so the candidate diff is empty. -/
def r₁ : GitRepo :=
  { commits := [c₀, c₁], base_commit_id := 0, branches := [], notes := []
    signature := some sig₀, next_oid := 10
    cherrypick := fun _ _ => { entries := [], conflicts := [] }
    applyToTree := fun t ds => { entries := applyDiff t ds, conflicts := [] } }

/-- Concrete repository in which cherry-picking `c₁` adds file `f`, so
the candidate diff against the base is non-empty. -/
def r₂ : GitRepo :=
  { commits := [c₀, c₁], base_commit_id := 0, branches := [], notes := []
    signature := some sig₀, next_oid := 10
    cherrypick := fun _ _ => { entries := [("f", 1)], conflicts := [] }
    applyToTree := fun t ds => { entries := applyDiff t ds, conflicts := [] } }

/-- Concrete repository with a tracked commit `c₁` whose metadata pins
remote commit `2`, and a remote branch `origin/pr-1` also at commit `2`. -/
def r₆ : GitRepo :=
  { commits := [c₀, c₁, c₂], base_commit_id := 0
    branches := [("origin/pr-1", 2)], notes := [(1, meta₁)]
    signature := some sig₀, next_oid := 10
    cherrypick := fun _ _ => { entries := [], conflicts := [] }
    applyToTree := fun t ds => { entries := applyDiff t ds, conflicts := [] } }

/-- Concrete repository like `r₆` but with unpinned metadata on `c₁`. -/
def r₆' : GitRepo :=
  { r₆ with notes := [(1, meta₂)] }

end SC

namespace UB

open StackedCommits

/-- Commit `i` of a linear chain: commit `0` is the root, commit `i+1`
has parent `i`. -/
def chainCommit (i : Nat) : Commit :=
  { id := i
    parents := if i = 0 then [] else [i - 1]
    tree := []
    message := "step"
    author := sig₀
    committer := sig₀ }

/-- A store holding the linear chain `0, …, n`, with local branch `main`
at commit `n` and remote branch `origin/main` at commit `b`. -/
def chainStore (n b : Nat) : Store :=
  { commits := (List.range (n + 1)).map chainCommit
    localBranches := [("main", n)]
    remoteBranches := [("origin/main", b)]
    head := some (HeadRef.branch "refs/heads/main")
    worktree := []
    indexTree := []
    gitMergeState := false
    syncFile := none
    infoExclude := none
    notesRewriteConfig := false
    notes := []
    revs := []
    signature := none
    next_oid := n + 1
    events := [] }

/-- A handle on `chainStore n b`, on branch `main`, optionally
mid-reconciliation. -/
def chainRepo (n b : Nat) (ss : Option SyncState) : GitRepo :=
  { store := chainStore n b
    current_branch_name := "main"
    git_command_option := CommandOption.Silent
    sync_state := ss }

/-- Concrete persisted Sync State record. -/
def st₃ : SyncState :=
  { main_commit_id := 1, remote_commit_id := 2, main_commit_parent_id := 0
    main_branch_name := "main" }

/-- Concrete store with a detached `HEAD` and a loadable Sync State
file. -/
def w₃ : Store :=
  { commits := [], localBranches := [], remoteBranches := []
    head := some (HeadRef.detached 5)
    worktree := [], indexTree := [], gitMergeState := false
    syncFile := some (some st₃)
    infoExclude := none, notesRewriteConfig := false, notes := []
    revs := [], signature := none, next_oid := 0, events := [] }

/-- Concrete store with a detached `HEAD` and no Sync State file. -/
def wDet : Store := { w₃ with syncFile := none }

/-- Concrete store whose Sync State file exists but does not parse. -/
def wCorrupt : Store := { w₃ with syncFile := some none }

/-- Concrete handle whose Sync State file already exists. -/
def gFile : GitRepo :=
  { store := w₃, current_branch_name := "main"
    git_command_option := CommandOption.Silent, sync_state := some st₃ }

/-- Concrete commit a branch is relocated to. -/
def c₇ : Commit :=
  { id := 1, parents := [0], tree := [("f", 1)], message := "step"
    author := sig₀, committer := sig₀ }

/-- Concrete dry-run handle on a repository whose branch `main` points
at commit `0`. -/
def g₇ : GitRepo :=
  { store := { commits := [c₀, c₇]
               localBranches := [("main", 0)]
               remoteBranches := [("origin/main", 0)]
               head := some (HeadRef.branch "refs/heads/main")
               worktree := [], indexTree := [], gitMergeState := false
               syncFile := none, infoExclude := none
               notesRewriteConfig := false, notes := []
               revs := [], signature := none, next_oid := 10, events := [] }
    current_branch_name := "main"
    git_command_option := CommandOption.DryRun
    sync_state := none }

/-- The same handle as `g₇` but outside dry-run. -/
def g₈ : GitRepo := { g₇ with git_command_option := CommandOption.Silent }

/-- Sync State of the concrete interrupted reconciliation below. -/
def stM : SyncState :=
  { main_commit_id := 1, remote_commit_id := 2, main_commit_parent_id := 0
    main_branch_name := "main" }

/-- Concrete handle mid-reconciliation: tracked commit `1` conflicted
against remote commit `2`; the index holds the user's resolution. -/
def gM : GitRepo :=
  { store := { commits := [c₀, c₁, c₂]
               localBranches := [("main", 1)]
               remoteBranches := [("origin/main", 0), ("origin/pr-1", 2)]
               head := some (HeadRef.branch "refs/heads/main")
               worktree := [("f", 3)]
               indexTree := [("f", 3)]
               gitMergeState := true
               syncFile := some (some stM)
               infoExclude := some ".ubr"
               notesRewriteConfig := true
               notes := [(1, meta₂)]
               revs := [], signature := some sig₀, next_oid := 10, events := [] }
    current_branch_name := "main"
    git_command_option := CommandOption.Silent
    sync_state := some stM }

/-- Sync State naming commit `2` of a chain as the conflicted commit. -/
def stK : SyncState :=
  { main_commit_id := 2, remote_commit_id := 99, main_commit_parent_id := 1
    main_branch_name := "main" }

end UB


open StackedCommits

/-- C1: publishing is a no-op on an unchanged commit: whenever the
cherry-picked candidate's diff against the chosen target tip (the PR
branch head, or the base commit when there is none) is empty,
`cherry_pick_commit` reports "Already up to date", returns no new
commit, and leaves the repository (commits, notes, branches) entirely
unchanged. -/
theorem cherry_pick_commit_noop_on_empty_diff
    (r : SC.GitRepo) (original_commit : Commit) (pr_head : Option Commit)
    (base_commit : Commit)
    (hbase : SC.find_commit r r.base_commit_id = some base_commit)
    (hdiff : diff_tree_to_index (pr_head.getD base_commit).tree
      (r.cherrypick original_commit.id base_commit.id) = []) :
    ∃ out, SC.cherry_pick_commit r original_commit pr_head =
      Except.ok (r, out, none) ∧ "Already up to date" ∈ out := by
  unfold SC.cherry_pick_commit
  simp only [hbase, hdiff, List.isEmpty_nil, if_true]
  exact ⟨_, rfl, by simp⟩

/-- Witness for C1: in `r₁` the cherry-pick of `c₁` reproduces the base
tree, so publishing it again is reported as already up to date and
creates nothing. -/
theorem cherry_pick_commit_noop_on_empty_diff_witness :
    SC.find_commit SC.r₁ SC.r₁.base_commit_id = some c₀ ∧
    diff_tree_to_index ((none : Option Commit).getD c₀).tree
      (SC.r₁.cherrypick c₁.id c₀.id) = [] ∧
    (∃ out, SC.cherry_pick_commit SC.r₁ c₁ none =
      Except.ok (SC.r₁, out, none) ∧ "Already up to date" ∈ out) :=
  ⟨by rfl, by rfl,
    cherry_pick_commit_noop_on_empty_diff SC.r₁ c₁ none c₀ (by rfl) (by rfl)⟩

/-- C8: in the single-PR cherry-pick helper, a non-conflicting,
non-empty cherry-pick commits with the original commit's message when
the chosen parent is the base commit, and with a `Fixup!` message
naming the parent commit when the parent is a pre-existing PR branch
head. -/
theorem cherry_pick_commit_message_direct_or_fixup
    (r : SC.GitRepo) (original_commit : Commit) (pr_head : Option Commit)
    (base_commit parent_found : Commit)
    (hbase : SC.find_commit r r.base_commit_id = some base_commit)
    (hdiff : diff_tree_to_index (pr_head.getD base_commit).tree
      (r.cherrypick original_commit.id base_commit.id) ≠ [])
    (hpar : SC.find_commit r (pr_head.getD base_commit).id = some parent_found)
    (hconf : (r.applyToTree (pr_head.getD base_commit).tree
      (diff_tree_to_index (pr_head.getD base_commit).tree
        (r.cherrypick original_commit.id base_commit.id))).conflicts = []) :
    ∃ r' out c,
      SC.cherry_pick_commit r original_commit pr_head =
        Except.ok (r', out, some c) ∧
      c.message = (if (pr_head.getD base_commit).id = r.base_commit_id
        then original_commit.message
        else "Fixup! " ++ toString (pr_head.getD base_commit).id) := by
  have hne : (diff_tree_to_index (pr_head.getD base_commit).tree
      (r.cherrypick original_commit.id base_commit.id)).isEmpty = false := by
    simpa [List.isEmpty_iff] using hdiff
  unfold SC.cherry_pick_commit SC.commit_index
  simp only [hbase, hne, Bool.false_eq_true, if_false]
  by_cases hid : (pr_head.getD base_commit).id = r.base_commit_id
  · rw [if_pos hid]
    simp only [hconf, ne_eq, not_true_eq_false, if_false, hpar, Except.map_ok]
    exact ⟨_, _, _, rfl, by rw [if_pos hid]⟩
  · rw [if_neg hid]
    simp only [hconf, ne_eq, not_true_eq_false, if_false, hpar, Except.map_ok]
    exact ⟨_, _, _, rfl, by rw [if_neg hid]⟩

/-- Witness for C8: in `r₂` the cherry-pick of `c₁` onto the base adds
file `f`; the resulting commit carries `c₁`'s own message because the
chosen parent is the base commit. -/
theorem cherry_pick_commit_message_direct_or_fixup_witness :
    SC.find_commit SC.r₂ SC.r₂.base_commit_id = some c₀ ∧
    diff_tree_to_index ((none : Option Commit).getD c₀).tree
      (SC.r₂.cherrypick c₁.id c₀.id) ≠ [] ∧
    (∃ r' out c,
      SC.cherry_pick_commit SC.r₂ c₁ none = Except.ok (r', out, some c) ∧
      c.message = (if ((none : Option Commit).getD c₀).id = SC.r₂.base_commit_id
        then c₁.message
        else "Fixup! " ++ toString ((none : Option Commit).getD c₀).id)) :=
  ⟨by rfl, by decide,
    cherry_pick_commit_message_direct_or_fixup SC.r₂ c₁ none c₀ c₀
      (by rfl) (by decide) (by rfl) (by rfl)⟩

/-- C6: resolving a tracked commit's remote counterpart returns the
pinned `remote_commit` exactly when the pin is present, and the current
head of `origin/<remote_branch_name>` when the pin is absent. -/
theorem find_local_branch_commit_pinned_or_branch_head
    (r : SC.GitRepo) (local_commit : Commit) (meta : CommitMetadata)
    (hnote : SC.find_note_for_commit r local_commit.id = some meta) :
    (∀ rid c, meta.remote_commit = some rid → SC.find_commit r rid = some c →
      SC.find_local_branch_commit r local_commit = Except.ok c) ∧
    (∀ c, meta.remote_commit = none →
      SC.find_branch_commit r ("origin/" ++ meta.remote_branch_name) = some c →
      SC.find_local_branch_commit r local_commit = Except.ok c) := by
  constructor
  · intro rid c hpin hfind
    simp only [SC.find_local_branch_commit, hnote, hpin, hfind]
  · intro c hpin hhead
    simp only [SC.find_local_branch_commit, hnote, hpin, hhead]

/-- Witness for C6: in `r₆` the metadata of commit `1` pins remote
commit `2`, which is returned; in `r₆'` the pin is absent and the head
of `origin/pr-1` is returned instead. -/
theorem find_local_branch_commit_pinned_or_branch_head_witness :
    SC.find_note_for_commit SC.r₆ c₁.id = some meta₁ ∧
    SC.find_local_branch_commit SC.r₆ c₁ = Except.ok c₂ ∧
    SC.find_note_for_commit SC.r₆' c₁.id = some meta₂ ∧
    SC.find_local_branch_commit SC.r₆' c₁ = Except.ok c₂ :=
  ⟨by rfl,
    (find_local_branch_commit_pinned_or_branch_head SC.r₆ c₁ meta₁ (by rfl)).1
      2 c₂ (by rfl) (by rfl),
    by rfl,
    (find_local_branch_commit_pinned_or_branch_head SC.r₆' c₁ meta₂ (by rfl)).2
      c₂ (by rfl) (by rfl)⟩

/-- C4: at most one Sync State exists at a time: `save_sync_state` uses
exclusive file creation, so it fails — leaving the existing record and
all other state untouched — whenever a persisted Sync State file already
exists, and writes the record only when none exists.  (The persisted
state lives at the single fixed path `.ubr/SYNC_MERGE_HEAD`, modelled as
one `Option` field, so every operation preserves "at most one record"
by construction.) -/
theorem save_sync_state_refuses_overwrite
    (g : UB.GitRepo) (st : UB.SyncState) :
    (∀ old, g.store.syncFile = some old →
      UB.save_sync_state g st = (g, Except.error "File exists (os error 17)")) ∧
    (g.store.syncFile = none →
      (UB.save_sync_state g st).2 = Except.ok () ∧
      (UB.save_sync_state g st).1.store.syncFile = some (some st)) := by
  constructor
  · intro old h
    simp only [UB.save_sync_state, h]
  · intro h
    simp [UB.save_sync_state, h]

/-- Witness for C4: on `gFile`, whose Sync State file already exists,
saving fails and the handle is returned unchanged. -/
theorem save_sync_state_refuses_overwrite_witness :
    UB.gFile.store.syncFile = some (some UB.st₃) ∧
    UB.save_sync_state UB.gFile UB.st₃ =
      (UB.gFile, Except.error "File exists (os error 17)") :=
  ⟨by decide,
    (save_sync_state_refuses_overwrite UB.gFile UB.st₃).1
      (some UB.st₃) (by decide)⟩

/-- C5: `find_unpushed_commit` returns the resolved commit (as its
Tracked/Untracked view) exactly when it is a strict descendant of the
base commit, and fails with the already-pushed error otherwise.  The
function only reads the repository — in the embedding it returns no
repository at all — so no state is mutated on failure. -/
theorem find_unpushed_commit_strict_descendant_guard
    (g : UB.GitRepo) (ref : String) (oid : Oid) (commit base : Commit)
    (hrev : UB.revparse g.store ref = some oid)
    (hfind : UB.find_commit g.store oid = some commit)
    (hbase : UB.base_commit g = Except.ok base) :
    (graph_descendant_of (UB.find_commit g.store)
        (g.store.commits.length + 1) commit.id base.id = true →
      UB.find_unpushed_commit g ref = Except.ok (UB.MainCommit.new g.store commit)) ∧
    (graph_descendant_of (UB.find_commit g.store)
        (g.store.commits.length + 1) commit.id base.id = false →
      UB.find_unpushed_commit g ref = Except.error
        ("Commit " ++ toString commit.id ++ " is already pushed to the remote")) := by
  constructor <;> intro h <;>
    simp only [UB.find_unpushed_commit, hrev, hfind, hbase, h, if_true, if_false,
      Bool.false_eq_true]

/-- Witness for C5: on the chain `0 ← 1 ← 2` with base `0`, revision
"2" is a strict descendant of the base and is returned, while revision
"0" (the base itself — descent is strict) fails as already pushed. -/
theorem find_unpushed_commit_strict_descendant_guard_witness :
    UB.revparse (UB.chainRepo 2 0 none).store "2" = some 2 ∧
    UB.find_commit (UB.chainRepo 2 0 none).store 2 = some (UB.chainCommit 2) ∧
    UB.base_commit (UB.chainRepo 2 0 none) = Except.ok (UB.chainCommit 0) ∧
    UB.find_unpushed_commit (UB.chainRepo 2 0 none) "2" =
      Except.ok (UB.MainCommit.new (UB.chainRepo 2 0 none).store (UB.chainCommit 2)) ∧
    UB.revparse (UB.chainRepo 2 0 none).store "0" = some 0 ∧
    UB.find_unpushed_commit (UB.chainRepo 2 0 none) "0" =
      Except.error ("Commit " ++ toString (UB.chainCommit 0).id ++
        " is already pushed to the remote") :=
  ⟨by decide, by decide, by decide,
    (find_unpushed_commit_strict_descendant_guard (UB.chainRepo 2 0 none) "2" 2
      (UB.chainCommit 2) (UB.chainCommit 0) (by decide) (by decide) (by decide)).1
      (by decide),
    by decide,
    (find_unpushed_commit_strict_descendant_guard (UB.chainRepo 2 0 none) "0" 0
      (UB.chainCommit 0) (UB.chainCommit 0) (by decide) (by decide) (by decide)).2
      (by decide)⟩

/-- C10: a Sync State file whose contents do not parse is treated as
absent: `try_load_sync_state` returns `none` and `open_with_remote`
behaves exactly as a fresh (non-resuming) open — the observable outcome
(success or error, branch name, loaded sync state) is identical to the
outcome with no file at all, and no error is reported for the corrupt
file. -/
theorem open_ignores_unparsable_sync_state
    (w : UB.Store) (remote : UB.CommandOption)
    (hcorrupt : w.syncFile = some none) :
    UB.try_load_sync_state w = none ∧
    (UB.open_with_remote w remote).map (fun g => (g.current_branch_name, g.sync_state)) =
      (UB.open_with_remote { w with syncFile := none } remote).map
        (fun g => (g.current_branch_name, g.sync_state)) := by
  have h1 : UB.try_load_sync_state w = none := by
    simp [UB.try_load_sync_state, hcorrupt]
  have h2 : UB.try_load_sync_state { w with syncFile := none } = none := rfl
  refine ⟨h1, ?_⟩
  unfold UB.open_with_remote
  rw [h1, h2]
  cases hh : w.head with
  | none => simp [hh]
  | some hr =>
    cases hr with
    | detached i => simp [hh]
    | branch refname =>
      by_cases hs : strStarts refname "refs/heads/" = true
      · simp [hh, hs, Except.map]
      · simp [hh, hs]

/-- Witness for C10: `wCorrupt` holds an unparsable Sync State file;
the load yields nothing and opening behaves as with no file. -/
theorem open_ignores_unparsable_sync_state_witness :
    UB.wCorrupt.syncFile = some none ∧
    UB.try_load_sync_state UB.wCorrupt = none ∧
    (UB.open_with_remote UB.wCorrupt UB.CommandOption.Silent).map
        (fun g => (g.current_branch_name, g.sync_state)) =
      (UB.open_with_remote { UB.wCorrupt with syncFile := none }
        UB.CommandOption.Silent).map (fun g => (g.current_branch_name, g.sync_state)) :=
  ⟨by decide,
    (open_ignores_unparsable_sync_state UB.wCorrupt UB.CommandOption.Silent
      (by decide)).1,
    (open_ignores_unparsable_sync_state UB.wCorrupt UB.CommandOption.Silent
      (by decide)).2⟩

/-- Counterexample for C3: the claim says every `open` with a detached
HEAD fails, but when a persisted Sync State loads, `open_with_remote`
returns before the HEAD check: on `w₃`, whose HEAD is detached at
commit `5` and whose Sync State file holds `st₃`, the open succeeds. -/
theorem open_with_remote_detached_head_counterexample :
    UB.w₃.head = some (UB.HeadRef.detached 5) ∧
    UB.open_with_remote UB.w₃ UB.CommandOption.Silent =
      Except.ok
        { store := UB.w₃
          current_branch_name := "main"
          git_command_option := UB.CommandOption.Silent
          sync_state := some UB.st₃ } := by decide

/-- C3 (amended): when no persisted Sync State loads, a detached HEAD
makes `open_with_remote` fail with the detached-HEAD error; when a Sync
State loads, `open_with_remote` returns immediately with the persisted
branch name and the loaded state, without examining HEAD at all. -/
theorem open_with_remote_sync_state_bypasses_head_check
    (w : UB.Store) (remote : UB.CommandOption) :
    (∀ i, UB.try_load_sync_state w = none →
      w.head = some (UB.HeadRef.detached i) →
      UB.open_with_remote w remote = Except.error "Detached HEAD") ∧
    (∀ st, UB.try_load_sync_state w = some st →
      UB.open_with_remote w remote = Except.ok
        { store := w, current_branch_name := st.main_branch_name,
          git_command_option := remote, sync_state := some st }) := by
  constructor
  · intro i h1 h2
    simp only [UB.open_with_remote, h1, h2]
  · intro st h1
    simp only [UB.open_with_remote, h1]

/-- Witness for C3 (amended): `wDet` (detached HEAD, no Sync State)
fails with the detached-HEAD error; `w₃` (same detached HEAD but a
loadable Sync State) opens successfully with the persisted branch. -/
theorem open_with_remote_sync_state_bypasses_head_check_witness :
    UB.try_load_sync_state UB.wDet = none ∧
    UB.wDet.head = some (UB.HeadRef.detached 5) ∧
    UB.open_with_remote UB.wDet UB.CommandOption.Silent =
      Except.error "Detached HEAD" ∧
    UB.try_load_sync_state UB.w₃ = some UB.st₃ ∧
    UB.open_with_remote UB.w₃ UB.CommandOption.Silent =
      Except.ok
        { store := UB.w₃
          current_branch_name := UB.st₃.main_branch_name
          git_command_option := UB.CommandOption.Silent
          sync_state := some UB.st₃ } :=
  ⟨by decide, by decide,
    (open_with_remote_sync_state_bypasses_head_check UB.wDet
      UB.CommandOption.Silent).1 5 (by decide) (by decide),
    by decide,
    (open_with_remote_sync_state_bypasses_head_check UB.w₃
      UB.CommandOption.Silent).2 UB.st₃ (by decide)⟩

/-- Counterexample for C7: the claim says every call relocates the
branch (with only the working-tree update conditioned on dry-run), but
under `DryRun` the function returns after printing: on `g₇` (dry-run,
branch `main` at commit `0`) relocating to commit `1` moves nothing. -/
theorem update_current_branch_dryrun_counterexample :
    UB.g₇.git_command_option = UB.CommandOption.DryRun ∧
    UB.c₇.id = 1 ∧
    (UB.update_current_branch UB.g₇ UB.c₇).1.store.localBranches = [("main", 0)] ∧
    (UB.update_current_branch UB.g₇ UB.c₇).1.store.localBranches ≠
      [("main", UB.c₇.id)] ∧
    (UB.update_current_branch UB.g₇ UB.c₇).1.store.head = UB.g₇.store.head ∧
    (UB.update_current_branch UB.g₇ UB.c₇).2 = Except.ok () := by decide

/-- C7 (amended): outside dry-run, `update_current_branch` relocates
the current branch to `new_head` by updating the working tree to
`new_head`'s tree and then — in this order — detaching HEAD, moving the
branch ref, and reattaching HEAD; under `DryRun` it only prints the
intended movement and changes nothing. -/
theorem update_current_branch_relocates_outside_dryrun
    (g : UB.GitRepo) (new_head : Commit) :
    (g.git_command_option ≠ UB.CommandOption.DryRun →
      (UB.update_current_branch g new_head).2 = Except.ok () ∧
      ((UB.update_current_branch g new_head).1.store.localBranches.find?
          (fun b => b.1 = g.current_branch_name)) =
        some (g.current_branch_name, new_head.id) ∧
      (UB.update_current_branch g new_head).1.store.head =
        some (UB.HeadRef.branch ("refs/heads/" ++ g.current_branch_name)) ∧
      (UB.update_current_branch g new_head).1.store.worktree = new_head.tree ∧
      (UB.update_current_branch g new_head).1.store.events =
        g.store.events ++
          [UB.Event.checkedOutTree new_head.tree,
           UB.Event.headDetached new_head.id,
           UB.Event.branchMoved g.current_branch_name new_head.id,
           UB.Event.headSet ("refs/heads/" ++ g.current_branch_name)]) ∧
    (g.git_command_option = UB.CommandOption.DryRun →
      (UB.update_current_branch g new_head).1.store.localBranches =
        g.store.localBranches ∧
      (UB.update_current_branch g new_head).1.store.head = g.store.head ∧
      (UB.update_current_branch g new_head).1.store.worktree = g.store.worktree ∧
      (UB.update_current_branch g new_head).1.store.events =
        g.store.events ++ [UB.Event.printed ("Setting " ++ g.current_branch_name ++
          " to point to " ++ toString new_head.id)]) := by
  constructor
  · intro hnd
    cases hopt : g.git_command_option with
    | DryRun => exact absurd hopt hnd
    | Default =>
      simp [UB.update_current_branch, hopt, List.find?_cons_of_pos,
        List.append_assoc]
    | Silent =>
      simp [UB.update_current_branch, hopt, List.find?_cons_of_pos,
        List.append_assoc]
  · intro hopt
    simp [UB.update_current_branch, hopt]

/-- Witness for C7 (amended): on `g₈` (same repository, not dry-run)
relocating to commit `1` moves the branch, reattaches HEAD and checks
out the tree, in the recorded order. -/
theorem update_current_branch_relocates_outside_dryrun_witness :
    UB.g₈.git_command_option ≠ UB.CommandOption.DryRun ∧
    ((UB.update_current_branch UB.g₈ UB.c₇).2 = Except.ok () ∧
      ((UB.update_current_branch UB.g₈ UB.c₇).1.store.localBranches.find?
          (fun b => b.1 = UB.g₈.current_branch_name)) =
        some (UB.g₈.current_branch_name, UB.c₇.id) ∧
      (UB.update_current_branch UB.g₈ UB.c₇).1.store.head =
        some (UB.HeadRef.branch ("refs/heads/" ++ UB.g₈.current_branch_name)) ∧
      (UB.update_current_branch UB.g₈ UB.c₇).1.store.worktree = UB.c₇.tree ∧
      (UB.update_current_branch UB.g₈ UB.c₇).1.store.events =
        UB.g₈.store.events ++
          [UB.Event.checkedOutTree UB.c₇.tree,
           UB.Event.headDetached UB.c₇.id,
           UB.Event.branchMoved UB.g₈.current_branch_name UB.c₇.id,
           UB.Event.headSet ("refs/heads/" ++ UB.g₈.current_branch_name)]) :=
  ⟨by decide,
    (update_current_branch_relocates_outside_dryrun UB.g₈ UB.c₇).1 (by decide)⟩

/-- A found commit carries the identifier it was looked up by. -/
theorem find_commit_id (s : UB.Store) (i : Oid) (c : Commit)
    (h : UB.find_commit s i = some c) : c.id = i := by
  unfold UB.find_commit at h
  have h2 := List.find?_some h
  simpa using h2

/-- C2: `finish_merge` first creates the merge commit — whose parents
are the current `HEAD` commit and the persisted remote commit — and only
afterwards deletes the persisted Sync State: in every execution, no
deletion event precedes the first commit-creation event, and whenever
the deletion happened at all, a "Merge" commit with exactly those
parents exists and was recorded as created. -/
theorem finish_merge_deletes_sync_state_only_after_merge_commit
    (g : UB.GitRepo) (st : UB.SyncState)
    (hst : g.sync_state = some st) (hev : g.store.events = []) :
    UB.deletionPrecededByCommit (UB.finish_merge g).1.store.events = true ∧
    (UB.Event.syncStateDeleted ∈ (UB.finish_merge g).1.store.events →
      ∃ hc mc, UB.head_commit g.store = Except.ok hc ∧
        mc ∈ (UB.finish_merge g).1.store.commits ∧
        mc.parents = [hc.id, st.remote_commit_id] ∧
        mc.message = "Merge" ∧
        UB.Event.commitCreated mc.id ∈ (UB.finish_merge g).1.store.events) := by
  unfold UB.finish_merge
  simp only [hst]
  cases hsig : g.store.signature with
  | none => simp [hev, UB.deletionPrecededByCommit]
  | some author =>
    cases hhc : UB.head_commit g.store with
    | error e => simp [hev, UB.deletionPrecededByCommit]
    | ok headC =>
      cases hrc : UB.find_commit g.store st.remote_commit_id with
      | none => simp [hev, UB.deletionPrecededByCommit]
      | some remoteC =>
        have hrid : remoteC.id = st.remote_commit_id := find_commit_id _ _ _ hrc
        cases hsf : g.store.syncFile with
        | none =>
          simp [UB.cleanup_state, hsf, hev, UB.deletionPrecededByCommit]
        | some oldf =>
          simp only [UB.cleanup_state, hsf, hev]
          split
          · refine ⟨by simp [UB.deletionPrecededByCommit], fun _ => ?_⟩
            exact ⟨headC,
              { id := g.store.next_oid, parents := [headC.id, remoteC.id],
                tree := g.store.indexTree, message := "Merge",
                author := author, committer := author },
              rfl, by simp, by simp [hrid], rfl, by simp⟩
          · refine ⟨by simp [UB.deletionPrecededByCommit], fun _ => ?_⟩
            exact ⟨headC,
              { id := g.store.next_oid, parents := [headC.id, remoteC.id],
                tree := g.store.indexTree, message := "Merge",
                author := author, committer := author },
              rfl, by simp, by simp [hrid], rfl, by simp⟩
          · split
            · refine ⟨by simp [UB.deletionPrecededByCommit], fun _ => ?_⟩
              exact ⟨headC,
                { id := g.store.next_oid, parents := [headC.id, remoteC.id],
                  tree := g.store.indexTree, message := "Merge",
                  author := author, committer := author },
                rfl, by simp, by simp [hrid], rfl, by simp⟩
            · simp only [UB.TrackedCommit.cont]
              split
              · refine ⟨by simp [UB.deletionPrecededByCommit], fun _ => ?_⟩
                exact ⟨headC,
                  { id := g.store.next_oid, parents := [headC.id, remoteC.id],
                    tree := g.store.indexTree, message := "Merge",
                    author := author, committer := author },
                  rfl, by simp, by simp [hrid], rfl, by simp⟩
              · refine ⟨by simp [UB.deletionPrecededByCommit], fun _ => ?_⟩
                exact ⟨headC,
                  { id := g.store.next_oid, parents := [headC.id, remoteC.id],
                    tree := g.store.indexTree, message := "Merge",
                    author := author, committer := author },
                  rfl, by simp, by simp [hrid], rfl, by simp⟩

/-- Witness for C2: resuming the concrete interrupted reconciliation
`gM` actually deletes the Sync State, and the merge commit with parents
`HEAD` and the persisted remote commit was created first. -/
theorem finish_merge_deletes_sync_state_only_after_merge_commit_witness :
    UB.gM.sync_state = some UB.stM ∧
    UB.gM.store.events = [] ∧
    UB.Event.syncStateDeleted ∈ (UB.finish_merge UB.gM).1.store.events ∧
    UB.deletionPrecededByCommit (UB.finish_merge UB.gM).1.store.events = true ∧
    (∃ hc mc, UB.head_commit UB.gM.store = Except.ok hc ∧
      mc ∈ (UB.finish_merge UB.gM).1.store.commits ∧
      mc.parents = [hc.id, UB.stM.remote_commit_id] ∧
      mc.message = "Merge" ∧
      UB.Event.commitCreated mc.id ∈ (UB.finish_merge UB.gM).1.store.events) :=
  ⟨by decide, by decide, by decide,
    (finish_merge_deletes_sync_state_only_after_merge_commit UB.gM UB.stM
      (by decide) (by decide)).1,
    (finish_merge_deletes_sync_state_only_after_merge_commit UB.gM UB.stM
      (by decide) (by decide)).2 (by decide)⟩

/-- Looking up a chain commit by id in a mapped list finds it. -/
theorem find_chain_aux (l : List Nat) (i : Nat) (h : i ∈ l) :
    (l.map UB.chainCommit).find? (fun c => c.id = i) = some (UB.chainCommit i) := by
  induction l with
  | nil => cases h
  | cons a t ih =>
    by_cases hai : a = i
    · subst hai
      simp [List.find?_cons, UB.chainCommit]
    · have hmem : i ∈ t := by
        rcases List.mem_cons.mp h with h1 | h1
        · exact absurd h1.symm hai
        · exact h1
      simp [List.find?_cons, UB.chainCommit, hai, ih hmem]

/-- Every commit `i ≤ n` of the chain store resolves to `chainCommit i`. -/
theorem find_commit_chain (n b i : Nat) (h : i ≤ n) :
    UB.find_commit (UB.chainStore n b) i = some (UB.chainCommit i) := by
  have he : UB.find_commit (UB.chainStore n b) i
      = ((List.range (n+1)).map UB.chainCommit).find? (fun c => c.id = i) := rfl
  rw [he]
  exact find_chain_aux _ i (List.mem_range.mpr (by omega))

/-- On the chain, the strict ancestors of commit `k` are exactly the
commits below it. -/
theorem ancestors_chain (n b : Nat) :
    ∀ k fuel, k ≤ n → k ≤ fuel →
      ancestorsFuel (UB.find_commit (UB.chainStore n b)) fuel k =
        (List.range k).reverse := by
  intro k
  induction k with
  | zero =>
    intro fuel _ _
    cases fuel with
    | zero => rfl
    | succ f =>
      simp [ancestorsFuel, find_commit_chain n b 0 (by omega), UB.chainCommit]
  | succ k ih =>
    intro fuel h1 h2
    cases fuel with
    | zero => omega
    | succ f =>
      have hl := find_commit_chain n b (k+1) h1
      simp only [ancestorsFuel, hl]
      have hp : (UB.chainCommit (k+1)).parents = [k] := by
        simp [UB.chainCommit]
      rw [hp]
      simp only [List.flatMap_cons, List.flatMap_nil, List.append_nil,
        List.singleton_append]
      rw [ih f (by omega) (by omega)]
      simp [List.range_succ]

/-- On the chain, the hidden set of commit `k` is membership of
`{0, …, k}`. -/
theorem hidden_chain (n b k j fuel : Nat) (hk : k ≤ n) (hf : k ≤ fuel) :
    hiddenBy (UB.find_commit (UB.chainStore n b)) fuel k j = decide (j ≤ k) := by
  unfold hiddenBy
  rw [ancestors_chain n b k fuel hk hf]
  rw [Bool.eq_iff_iff]
  simp [List.contains, List.mem_reverse, List.mem_range]
  constructor
  · intro h
    rcases h with h | h
    · exact Nat.le_of_eq h
    · exact Nat.le_of_lt h
  · intro h
    rcases Nat.lt_or_ge j k with h2 | h2
    · exact Or.inr h2
    · exact Or.inl (Nat.le_antisymm h h2)

/-- Walking the chain down from commit `i` while hiding commit `k`
collects exactly the commits strictly between them, newest first. -/
theorem chain_walk (n b k fuelH : Nat) (hk : k ≤ n) (hkH : k ≤ fuelH) :
    ∀ fuel i, k ≤ i → i ≤ n → i - k ≤ fuel →
      chainFromFuel (UB.find_commit (UB.chainStore n b))
        (hiddenBy (UB.find_commit (UB.chainStore n b)) fuelH k) fuel i =
      (List.range' (k+1) (i-k)).reverse := by
  intro fuel
  induction fuel with
  | zero =>
    intro i h1 h2 h3
    have hz : i - k = 0 := by omega
    simp [chainFromFuel, hz]
  | succ f ih =>
    intro i h1 h2 h3
    by_cases hik : i = k
    · have hh : hiddenBy (UB.find_commit (UB.chainStore n b)) fuelH k i = true := by
        rw [hidden_chain n b k i fuelH hk hkH]
        simp [hik]
      have hz : i - k = 0 := by omega
      simp [chainFromFuel, hh, hz]
    · have hik2 : k < i := by omega
      have hh : hiddenBy (UB.find_commit (UB.chainStore n b)) fuelH k i = false := by
        rw [hidden_chain n b k i fuelH hk hkH]
        simp
        omega
      have hl := find_commit_chain n b i h2
      obtain ⟨m, rfl⟩ : ∃ m, i = m + 1 := ⟨i - 1, by omega⟩
      simp only [chainFromFuel, hh, hl, Bool.false_eq_true, if_false]
      have hp : (UB.chainCommit (m+1)).parents = [m] := by simp [UB.chainCommit]
      simp only [hp]
      rw [ih m (by omega) (by omega) (by omega)]
      have hs : m + 1 - k = (m - k) + 1 := by omega
      rw [hs, List.range'_1_concat]
      have ha : k + 1 + (m - k) = m + 1 := by omega
      rw [ha, List.reverse_append]
      rfl

/-- Mapping a per-commit resolution over a list of identifiers succeeds
elementwise. -/
theorem mapM_ok (f : Nat → Except String UB.MainCommit) :
    ∀ ids : List Nat,
      (∀ i ∈ ids, f i = Except.ok (UB.MainCommit.unTracked (UB.chainCommit i))) →
      List.mapM f ids =
        Except.ok (ids.map (fun i => UB.MainCommit.unTracked (UB.chainCommit i))) := by
  intro ids
  induction ids with
  | nil => intro _; rfl
  | cons a t ih =>
    intro h
    rw [List.mapM_cons, h a (by simp), ih (fun i hi => h i (by simp [hi]))]
    rfl

/-- Identifier of a chain commit. -/
theorem chainCommit_id (i : Nat) : (UB.chainCommit i).id = i := rfl

/-- C9: on a linear stack `0 ← 1 ← … ← n` with branch head `n` and
remote base `b`, while a Sync State naming conflicted commit `k` is
present `unpushed_commits` hides history from `k` — returning exactly
the commits strictly after `k`, oldest first — whereas without a Sync
State it returns the full stack strictly above the base `b`. -/
theorem unpushed_commits_hides_from_sync_state_commit
    (n b k : Nat) (st : UB.SyncState) (hk : k ≤ n) (hb : b ≤ n)
    (hmain : st.main_commit_id = k) :
    UB.unpushed_commits (UB.chainRepo n b (some st)) =
      Except.ok ((List.range' (k+1) (n-k)).map
        (fun i => UB.MainCommit.unTracked (UB.chainCommit i))) ∧
    UB.unpushed_commits (UB.chainRepo n b none) =
      Except.ok ((List.range' (b+1) (n-b)).map
        (fun i => UB.MainCommit.unTracked (UB.chainCommit i))) := by
  have hlen : (UB.chainStore n b).commits.length = n + 1 := by
    simp [UB.chainStore]
  have walk : ∀ j, j ≤ n →
      revwalkTopoReverse (UB.find_commit (UB.chainStore n b))
        ((UB.chainStore n b).commits.length + 1) n j = List.range' (j+1) (n-j) := by
    intro j hj
    unfold revwalkTopoReverse
    rw [hlen]
    rw [chain_walk n b j (n+1+1) hj (by omega) (n+1+1) n hj (le_refl n) (by omega)]
    exact List.reverse_reverse _
  have hheadb : UB.find_commit (UB.chainStore n b) n = some (UB.chainCommit n) :=
    find_commit_chain n b n (le_refl n)
  have hfb : (UB.chainStore n b).localBranches.find? (fun x => x.1 = "main") =
      some ("main", n) := rfl
  have hbase : UB.base_commit (UB.chainRepo n b none) = Except.ok (UB.chainCommit b) := by
    unfold UB.base_commit
    have h2 : UB.refname_to_id (UB.chainStore n b)
        ("refs/remotes/origin/" ++ "main") = some b := rfl
    simp only [UB.chainRepo]
    rw [h2]
    simp only [find_commit_chain n b b hb]
  have hel : ∀ j, ∀ i ∈ List.range' (j+1) (n-j), i ≤ n := by
    intro j i hi
    have := List.mem_range'_1.mp hi
    omega
  constructor
  · unfold UB.unpushed_commits
    simp only [UB.chainRepo]
    rw [hfb]
    simp only [hheadb, chainCommit_id, hmain]
    rw [walk k hk]
    refine mapM_ok _ _ ?_
    intro i hi
    have hfc := find_commit_chain n b i (hel k i hi)
    simp only [hfc]
    simp [UB.MainCommit.new, UB.chainStore]
  · unfold UB.unpushed_commits
    simp only [UB.chainRepo]
    rw [hfb]
    have hbase2 : UB.base_commit
        { store := UB.chainStore n b, current_branch_name := "main",
          git_command_option := UB.CommandOption.Silent, sync_state := none } =
        Except.ok (UB.chainCommit b) := hbase
    simp only [hheadb, chainCommit_id, hbase2, Except.map]
    rw [walk b hb]
    refine mapM_ok _ _ ?_
    intro i hi
    have hfc := find_commit_chain n b i (hel b i hi)
    simp only [hfc]
    simp [UB.MainCommit.new, UB.chainStore]

/-- Witness for C9: on the chain `0 ← 1 ← 2 ← 3` with base `1` and a
Sync State naming commit `2`, only commit `3` is returned; without the
Sync State, commits `2` and `3` are. -/
theorem unpushed_commits_hides_from_sync_state_commit_witness :
    (2 : Nat) ≤ 3 ∧ (1 : Nat) ≤ 3 ∧ UB.stK.main_commit_id = 2 ∧
    (UB.unpushed_commits (UB.chainRepo 3 1 (some UB.stK)) =
      Except.ok ((List.range' 3 1).map
        (fun i => UB.MainCommit.unTracked (UB.chainCommit i))) ∧
     UB.unpushed_commits (UB.chainRepo 3 1 none) =
      Except.ok ((List.range' 2 2).map
        (fun i => UB.MainCommit.unTracked (UB.chainCommit i)))) :=
  ⟨by decide, by decide, by decide,
    unpushed_commits_hides_from_sync_state_commit 3 1 2 UB.stK
      (by decide) (by decide) (by decide)⟩
